import Mathlib

/-!
Verification of the transactional object repository of cloud9-tools/cloud9.

The Go package `repo` maps typed entities onto bolt key-value buckets:
8-byte big-endian primary keys, a per-type `<type>.byname` secondary
index keyed by the lowercased name, and a per-bucket durable sequence
used for id allocation.  The `server` package layers the resource
handlers (create / conditional update) on top.

We shallow-embed the repository: buckets are association lists sorted by
byte-lexicographic key order (mirroring bolt's ordered B-tree pages), a
`Tx` holds the two buckets its entity type touches, fallible operations
return `Except RepoError`, and the Go `panic` inside `btou64` is
modelled by `Option.none` (lifted to `RepoError.panicKey` at call
sites).  Machine integers (`uint64`) are `Nat` with explicit `% 2 ^ 64`
bounds where they matter.
-/

set_option autoImplicit false

namespace Cloud9

/-- The closed set of entity types (`repo.ObjectType`). -/
inductive ObjectType where
  | blob
  | user
  | group
deriving DecidableEq

/-- Errors returned by the repository layer.  `notFound` embeds
`repo.NotFoundError{Type, Id, Name}` (Go leaves `Id = 0` for name
lookups and `Name = ""` for id lookups); `duplicate` embeds
`repo.DuplicateError{Type, ExistingId, DesiredName}`.  `panicKey`
models the Go `panic` in `btou64` on a key longer than 8 bytes: it is
not a recoverable error in Go, and the theorems below show it never
occurs on well-formed states. -/
inductive RepoError where
  | notFound (t : ObjectType) (id : Nat) (name : String)
  | duplicate (t : ObjectType) (existingId : Nat) (desiredName : String)
  | panicKey (len : Nat)
deriving DecidableEq

/-- Embeds `u64tob` from `repo`: the 8-byte big-endian representation of `v`
(`binary.BigEndian.PutUint64`; the `byte` casts truncate mod 256). -/
def u64tob (v : Nat) : List Nat :=
  [v / 256 ^ 7 % 256, v / 256 ^ 6 % 256, v / 256 ^ 5 % 256, v / 256 ^ 4 % 256,
   v / 256 ^ 3 % 256, v / 256 ^ 2 % 256, v / 256 ^ 1 % 256, v % 256]

/-- The value of a byte string read big-endian
(`binary.BigEndian.Uint64` on its 8-byte argument). -/
def beVal (b : List Nat) : Nat :=
  b.foldl (fun a x => a * 256 + x) 0

/-- The reassignment at the top of `btou64`: a byte string shorter
than 8 bytes is left-padded with zero bytes. -/
def pad8 (b : List Nat) : List Nat :=
  if b.length < 8 then List.replicate (8 - b.length) 0 ++ b else b

/-- Embeds `btou64` from `repo`: left-pads inputs shorter than 8 bytes with
zero bytes, panics (`none`) on inputs longer than 8 bytes, and decodes
big-endian otherwise. -/
def btou64 (b : List Nat) : Option Nat :=
  if (pad8 b).length > 8 then none else some (beVal (pad8 b))

/-- Byte-lexicographic strict order on byte strings, as used by bolt to
order keys within a bucket (`bytes.Compare`); a proper prefix is
smaller. -/
def lexLt : List Nat → List Nat → Bool
  | [], [] => false
  | [], _ :: _ => true
  | _ :: _, [] => false
  | a :: as, b :: bs => if a < b then true else if b < a then false else lexLt as bs

/-- A primary bucket: bolt stores key/value pairs in ascending key
order and keeps a durable per-bucket sequence counter. -/
structure Bucket where
  data : List (List Nat × List Nat)
  seq : Nat
deriving DecidableEq

/-- Association-list insert keeping byte-lexicographic key order
(bolt's `Put` on an ordered bucket replaces an existing key in
place). -/
def insertKV (k v : List Nat) : List (List Nat × List Nat) → List (List Nat × List Nat)
  | [] => [(k, v)]
  | e :: rest =>
    if lexLt k e.1 then (k, v) :: e :: rest
    else if k = e.1 then (k, v) :: rest
    else e :: insertKV k v rest

def Bucket.get (b : Bucket) (k : List Nat) : Option (List Nat) :=
  (b.data.find? (fun e => e.1 = k)).map Prod.snd

def Bucket.put (b : Bucket) (k v : List Nat) : Bucket :=
  { b with data := insertKV k v b.data }

def Bucket.del (b : Bucket) (k : List Nat) : Bucket :=
  { b with data := b.data.filter (fun e => e.1 ≠ k) }

/-- A `<type>.byname` secondary bucket: lowercased name bytes mapped to
8-byte big-endian id bytes.  Go keys it by `[]byte(lcname)`; since the
string/byte conversion is injective and no claim depends on the
iteration order of this bucket, we key it by the string itself. -/
structure NameBucket where
  data : List (String × List Nat)
deriving DecidableEq

def putNV (k : String) (v : List Nat) : List (String × List Nat) → List (String × List Nat)
  | [] => [(k, v)]
  | e :: rest => if e.1 = k then (k, v) :: rest else e :: putNV k v rest

def NameBucket.get (b : NameBucket) (k : String) : Option (List Nat) :=
  (b.data.find? (fun e => e.1 = k)).map Prod.snd

def NameBucket.put (b : NameBucket) (k : String) (v : List Nat) : NameBucket :=
  ⟨putNV k v b.data⟩

def NameBucket.del (b : NameBucket) (k : String) : NameBucket :=
  ⟨b.data.filter (fun e => e.1 ≠ k)⟩

/-- Embeds `repo.Tx`: a transaction scope bound to one entity type.  The Go
value holds the whole bolt transaction and selects buckets by
`tx.ot`; every operation touches only the primary bucket `tx.ot` and
the secondary bucket `tx.ot + ".byname"`, so we carry exactly those
two. -/
structure Tx where
  ot : ObjectType
  main : Bucket
  byname : NameBucket
deriving DecidableEq

/-- Embeds `Tx.Get`: the stored payload at `id`, or `NotFound`. -/
def Tx.Get (tx : Tx) (id : Nat) : Except RepoError (List Nat) :=
  match tx.main.get (u64tob id) with
  | none => .error (.notFound tx.ot id "")
  | some v => .ok v

/-- Embeds `Tx.Put`: insert or overwrite the record at `id` (bolt's `Put`
only fails on closed/read-only transactions, which the embedding does
not represent). -/
def Tx.Put (tx : Tx) (id : Nat) (v : List Nat) : Tx :=
  { tx with main := tx.main.put (u64tob id) v }

/-- Embeds `Tx.Delete`: remove the record at `id`; `NotFound` if absent. -/
def Tx.Delete (tx : Tx) (id : Nat) : Except RepoError Tx :=
  match tx.main.get (u64tob id) with
  | none => .error (.notFound tx.ot id "")
  | some _ => .ok { tx with main := tx.main.del (u64tob id) }

/-- Embeds `Tx.AllocateId`: bolt's `NextSequence` increments the bucket's
durable sequence and returns the new value. -/
def Tx.AllocateId (tx : Tx) : Nat × Tx :=
  (tx.main.seq + 1, { tx with main := { tx.main with seq := tx.main.seq + 1 } })

/-- Embeds `strings.ToLower`: lowercase a name character by character.  (Go
lowercases full Unicode, `Char.toLower` only ASCII; every claim about
the name index depends only on `Lookup` and `Associate` applying the
one same lowercasing that produced the stored key.) -/
def strToLower (s : String) : String :=
  ⟨s.data.map Char.toLower⟩

/-- Embeds `Tx.Lookup`: case-insensitive name resolution via the byname
bucket. -/
def Tx.Lookup (tx : Tx) (name : String) : Except RepoError Nat :=
  match tx.byname.get (strToLower name) with
  | none => .error (.notFound tx.ot 0 name)
  | some k =>
    match btou64 k with
    | none => .error (.panicKey k.length)
    | some id => .ok id

/-- Embeds `Tx.Associate`: insert a name→id mapping; `Duplicate` if the
lowercased name is already mapped. -/
def Tx.Associate (tx : Tx) (id : Nat) (name : String) : Except RepoError Tx :=
  match tx.byname.get (strToLower name) with
  | some k =>
    match btou64 k with
    | none => .error (.panicKey k.length)
    | some existingId => .error (.duplicate tx.ot existingId name)
  | none => .ok { tx with byname := tx.byname.put (strToLower name) (u64tob id) }

/-- Embeds `Tx.Unassociate`: remove the mapping for `name` if present; a
silent no-op otherwise. -/
def Tx.Unassociate (tx : Tx) (name : String) : Tx :=
  { tx with byname := tx.byname.del (strToLower name) }

/-- The sequence of `(id, payload)` arguments `Tx.ForEach` passes to
its visitor when the visitor never fails: bolt iterates the bucket in
ascending key order and the Go wrapper decodes each key with `btou64`
(`none` marks the panic on a malformed key). -/
def Tx.forEachVisits (tx : Tx) : List (Option Nat × List Nat) :=
  tx.main.data.map (fun e => (btou64 e.1, e.2))

/-- Embeds `Repo.Update`: runs `fn` in a read-write transaction; if `fn`
fails the transaction aborts and the state is unchanged, otherwise the
new state commits.  Go's `fn` mutates captured variables; the
embedding has it return the new state together with its result. -/
def RepoUpdate {α : Type} (tx : Tx) (fn : Tx → Except RepoError (Tx × α)) :
    Tx × Except RepoError α :=
  match fn tx with
  | .ok (tx2, a) => (tx2, .ok a)
  | .error e => (tx, .error e)

/-- Embeds `server.User` (protobuf message; `Id` is a `uint64`). -/
structure User where
  Id : Nat
  UserName : String
  DisplayName : String
  EMail : String
  URL : String
deriving DecidableEq

/-- The Go zero value of `User`, as produced by `var u User`. -/
def emptyUser : User :=
  { Id := 0, UserName := "", DisplayName := "", EMail := "", URL := "" }

/-- Embeds `server.UserDelta`: a partial update; `none` marks a field absent
from the caller's JSON body. -/
structure UserDelta where
  UserName : Option String
  DisplayName : Option String
  EMail : Option String
  URL : Option String

/-- Embeds `UserDelta.Apply` from `handler_user.go`: copy each provided field
onto `u`, in source order; a provided empty `DisplayName` falls back to
the (possibly just updated) `UserName`. -/
def UserDelta.Apply (d : UserDelta) (u : User) : User :=
  let u1 := match d.UserName with
    | some s => { u with UserName := s }
    | none => u
  let u2 := match d.DisplayName with
    | some s => if s = "" then { u1 with DisplayName := u1.UserName }
                else { u1 with DisplayName := s }
    | none => u1
  let u3 := match d.EMail with
    | some s => { u2 with EMail := s }
    | none => u2
  match d.URL with
  | some s => { u3 with URL := s }
  | none => u3

/-- The transaction body of `UserHandler.CreateUser` (the function
passed to `h.Repo.Update`): allocate an id, associate the name, persist
the marshalled record.  `marshal` stands for `MustMarshalProto`, whose
source is outside the modelled core and whose internals none of the
claims depend on. -/
def createUserTx (marshal : User → List Nat) (u0 : User) (tx : Tx) :
    Except RepoError (Tx × User) :=
  let p := tx.AllocateId
  let u := { u0 with Id := p.1 }
  match p.2.Associate u.Id u.UserName with
  | .error e => .error e
  | .ok tx2 => .ok (tx2.Put u.Id (marshal u), u)

/-- Embeds `UserHandler.CreateUser` from the `Update` call onward (the JSON
body has been parsed into `d` and `d.Validate(NewUser)` has passed). -/
def CreateUser (marshal : User → List Nat) (d : UserDelta) (tx : Tx) :
    Tx × Except RepoError User :=
  RepoUpdate tx (createUserTx marshal (d.Apply emptyUser))

/-- Outcome of `UserHandler.PutUser` / `GroupHandler.PutGroup`:
`preconditionRequired` is the 428 response, `preconditionFailed` the
412 response, both reporting the record's current fingerprint in the
`Etag` header; `updated` is the 200 response carrying the new
fingerprint and the updated record. -/
inductive PutOutcome where
  | preconditionRequired (currentETag : String)
  | preconditionFailed (currentETag : String)
  | updated (newETag : String) (u : User)
deriving DecidableEq

/-- The transaction body of `UserHandler.PutUser`: resolve the id (via
`Lookup` when the request path named the user), read and unmarshal the
current record, compare its fingerprint `ETagFor(MustMarshalJSON(u))`
against the `If-Match` header, and only on a match apply the delta and
persist.  On the 428/412 paths the Go body returns `nil`, so the
transaction commits with nothing written.  `marshalP`/`unmarshalP`
stand for `MustMarshalProto`/`MustUnmarshalProto`, `marshalJ` for
`MustMarshalJSON` and `etagFor` for `ETagFor`; their sources are
outside the modelled core and the protocol does not depend on them. -/
def putUserTx (marshalP : User → List Nat) (unmarshalP : List Nat → User)
    (marshalJ : User → List Nat) (etagFor : List Nat → String)
    (d : UserDelta) (ifMatch : String) (userId : Nat) (userName : String)
    (tx : Tx) : Except RepoError (Tx × PutOutcome) :=
  match (if userId = 0 then tx.Lookup userName else .ok userId) with
  | .error e => .error e
  | .ok uid =>
    match tx.Get uid with
    | .error e => .error e
    | .ok value =>
      let u := unmarshalP value
      let actualETag := etagFor (marshalJ u)
      if ifMatch = "" then .ok (tx, .preconditionRequired actualETag)
      else if ifMatch ≠ actualETag then .ok (tx, .preconditionFailed actualETag)
      else
        let u2 := d.Apply u
        .ok (tx.Put uid (marshalP u2), .updated (etagFor (marshalJ u2)) u2)

/-- Embeds `UserHandler.PutUser` from the `Update` call onward
(`d.Validate(ExistingUser)` has passed; `ifMatch` is the request's
`If-Match` header, `""` when absent). -/
def PutUser (marshalP : User → List Nat) (unmarshalP : List Nat → User)
    (marshalJ : User → List Nat) (etagFor : List Nat → String)
    (d : UserDelta) (ifMatch : String) (userId : Nat) (userName : String)
    (tx : Tx) : Tx × Except RepoError PutOutcome :=
  RepoUpdate tx (putUserTx marshalP unmarshalP marshalJ etagFor d ifMatch userId userName)

/-- The repository operations available inside a transaction, used to
state trace properties of id allocation. -/
inductive Op where
  | get (id : Nat)
  | put (id : Nat) (v : List Nat)
  | delete (id : Nat)
  | allocateId
  | lookup (name : String)
  | associate (id : Nat) (name : String)
  | unassociate (name : String)
  | restart

/-- One step of the durable (committed) history: the resulting state,
and the allocated id when the operation was `AllocateId`.  A failing
`Delete`/`Associate` leaves the state unchanged, exactly as in the
source.  `restart` closes and reopens the store: bolt persists bucket
data and sequence counters, so the durable state reloads unchanged. -/
def execOp (tx : Tx) : Op → Tx × Option Nat
  | .get _ => (tx, none)
  | .put id v => (tx.Put id v, none)
  | .delete id =>
    match tx.Delete id with
    | .ok tx2 => (tx2, none)
    | .error _ => (tx, none)
  | .allocateId => let p := tx.AllocateId; (p.2, some p.1)
  | .lookup _ => (tx, none)
  | .associate id n =>
    match tx.Associate id n with
    | .ok tx2 => (tx2, none)
    | .error _ => (tx, none)
  | .unassociate n => (tx.Unassociate n, none)
  | .restart => (tx, none)

/-- The ids returned by the `AllocateId` calls of a committed operation
history, in call order. -/
def allocTrace (tx : Tx) : List Op → List Nat
  | [] => []
  | op :: ops =>
    match execOp tx op with
    | (tx2, some v) => v :: allocTrace tx2 ops
    | (tx2, none) => allocTrace tx2 ops

/-! ### Arithmetic facts about the big-endian key encoding -/

theorem beVal_foldl (a : Nat) (xs : List Nat) :
    xs.foldl (fun a x => a * 256 + x) a = a * 256 ^ xs.length + beVal xs := by
  induction xs generalizing a with
  | nil => simp [beVal]
  | cons x xs ih =>
    show xs.foldl _ (a * 256 + x) = _
    rw [ih (a * 256 + x)]
    have hx : beVal (x :: xs) = x * 256 ^ xs.length + beVal xs := by
      show xs.foldl _ (0 * 256 + x) = _
      rw [ih (0 * 256 + x)]
      ring
    rw [hx, List.length_cons]
    ring

theorem beVal_cons (x : Nat) (xs : List Nat) :
    beVal (x :: xs) = x * 256 ^ xs.length + beVal xs := by
  show xs.foldl _ (0 * 256 + x) = _
  rw [beVal_foldl]
  ring

theorem beVal_lt (xs : List Nat) (hb : ∀ x ∈ xs, x < 256) :
    beVal xs < 256 ^ xs.length := by
  induction xs with
  | nil => simp [beVal]
  | cons x xs ih =>
    have hx : x < 256 := hb x (List.mem_cons_self x xs)
    have hxs : beVal xs < 256 ^ xs.length := ih (fun y hy => hb y (List.mem_cons_of_mem x hy))
    rw [beVal_cons, List.length_cons, pow_succ]
    calc x * 256 ^ xs.length + beVal xs
        < x * 256 ^ xs.length + 256 ^ xs.length := by omega
      _ = (x + 1) * 256 ^ xs.length := by ring
      _ ≤ 256 * 256 ^ xs.length := by
          have : x + 1 ≤ 256 := hx
          exact Nat.mul_le_mul_right _ this
      _ = 256 ^ xs.length * 256 := by ring

theorem u64tob_length (v : Nat) : (u64tob v).length = 8 := rfl

theorem u64tob_bytes (v : Nat) : ∀ x ∈ u64tob v, x < 256 := by
  intro x hx
  simp only [u64tob, List.mem_cons, List.not_mem_nil, or_false] at hx
  rcases hx with h | h | h | h | h | h | h | h <;> subst h <;>
    exact Nat.mod_lt _ (by norm_num)

theorem beVal_u64tob (v : Nat) : beVal (u64tob v) = v % 2 ^ 64 := by
  simp only [u64tob, beVal, List.foldl_cons, List.foldl_nil]
  omega

theorem pad8_of_len8 (b : List Nat) (h8 : b.length = 8) : pad8 b = b := by
  unfold pad8
  rw [if_neg (by omega)]

theorem btou64_of_len8 (b : List Nat) (h8 : b.length = 8) : btou64 b = some (beVal b) := by
  unfold btou64
  rw [pad8_of_len8 b h8, if_neg (by omega)]

theorem btou64_u64tob (v : Nat) (hv : v < 2 ^ 64) : btou64 (u64tob v) = some v := by
  rw [btou64_of_len8 (u64tob v) rfl, beVal_u64tob]
  congr 1
  omega

theorem u64tob_beVal (k : List Nat) (h8 : k.length = 8) (hb : ∀ x ∈ k, x < 256) :
    u64tob (beVal k) = k := by
  match k, h8 with
  | [b0, b1, b2, b3, b4, b5, b6, b7], _ =>
    simp only [List.mem_cons, List.not_mem_nil, or_false, forall_eq_or_imp, forall_eq] at hb
    obtain ⟨h0, h1, h2, h3, h4, h5, h6, h7⟩ := hb
    simp only [beVal, List.foldl_cons, List.foldl_nil, u64tob, List.cons.injEq, and_true]
    norm_num
    refine ⟨?_, ?_, ?_, ?_, ?_, ?_, ?_, ?_⟩ <;> omega

theorem beVal_lt_two_pow (k : List Nat) (h8 : k.length = 8) (hb : ∀ x ∈ k, x < 256) :
    beVal k < 2 ^ 64 := by
  have := beVal_lt k hb
  rw [h8] at this
  norm_num at this
  omega

theorem lexLt_iff_beVal_lt (xs ys : List Nat) (hlen : xs.length = ys.length)
    (hx : ∀ x ∈ xs, x < 256) (hy : ∀ y ∈ ys, y < 256) :
    lexLt xs ys = true ↔ beVal xs < beVal ys := by
  induction xs generalizing ys with
  | nil =>
    cases ys with
    | nil => simp [lexLt, beVal]
    | cons y ys => simp at hlen
  | cons x xs ih =>
    cases ys with
    | nil => simp at hlen
    | cons y ys =>
      simp only [List.length_cons, Nat.succ_inj] at hlen
      have hxs : ∀ a ∈ xs, a < 256 := fun a ha => hx a (List.mem_cons_of_mem _ ha)
      have hys : ∀ a ∈ ys, a < 256 := fun a ha => hy a (List.mem_cons_of_mem _ ha)
      have hbx : beVal xs < 256 ^ xs.length := beVal_lt xs hxs
      have hby : beVal ys < 256 ^ xs.length := by
        have := beVal_lt ys hys
        rwa [← hlen] at this
      have key : ∀ p q bp bq : Nat, p < q → bp < 256 ^ xs.length →
          p * 256 ^ xs.length + bp < q * 256 ^ xs.length + bq := by
        intro p q bp bq hpq hbp
        calc p * 256 ^ xs.length + bp
            < p * 256 ^ xs.length + 256 ^ xs.length := by omega
          _ = (p + 1) * 256 ^ xs.length := by ring
          _ ≤ q * 256 ^ xs.length := Nat.mul_le_mul_right _ hpq
          _ ≤ q * 256 ^ xs.length + bq := Nat.le_add_right _ _
      rw [beVal_cons, beVal_cons, ← hlen]
      simp only [lexLt]
      by_cases hlt : x < y
      · rw [if_pos hlt]
        exact iff_of_true rfl (key x y _ _ hlt hbx)
      · by_cases hgt : y < x
        · rw [if_neg hlt, if_pos hgt]
          exact iff_of_false (by simp) (not_lt.mpr (Nat.le_of_lt (key y x _ _ hgt hby)))
        · have hxy : x = y := by omega
          subst hxy
          rw [if_neg hlt, if_neg hgt, ih ys hlen hxs hys]
          exact (add_lt_add_iff_left _).symm

/-! ### Bucket well-formedness and basic bucket lemmas -/

/-- Bolt keeps each bucket's entries in strictly ascending
byte-lexicographic key order. -/
def BucketSorted (b : Bucket) : Prop :=
  b.data.Pairwise (fun e1 e2 => lexLt e1.1 e2.1 = true)

/-- Every key of a primary bucket is a fixed-width 8-byte string (the
form `u64tob` produces and `Tx.Put` stores). -/
def BucketKeys8 (b : Bucket) : Prop :=
  ∀ e ∈ b.data, e.1.length = 8 ∧ ∀ x ∈ e.1, x < 256

theorem lexLt_irrefl (k : List Nat) : lexLt k k = false := by
  induction k with
  | nil => rfl
  | cons x xs ih => simp [lexLt, ih]

theorem find?_eq_of_mem_sorted (l : List (List Nat × List Nat)) (k v : List Nat)
    (hs : l.Pairwise (fun e1 e2 => lexLt e1.1 e2.1 = true)) (hm : (k, v) ∈ l) :
    l.find? (fun e => e.1 = k) = some (k, v) := by
  induction l with
  | nil => simp at hm
  | cons e rest ih =>
    rcases List.pairwise_cons.mp hs with ⟨hhead, hrest⟩
    rcases List.mem_cons.mp hm with h | h
    · subst h
      simp
    · have hne : e.1 ≠ k := by
        intro hkk
        have := hhead (k, v) h
        rw [hkk] at this
        simp [lexLt_irrefl] at this
      have hstep : List.find? (fun e => decide (e.1 = k)) (e :: rest)
          = List.find? (fun e => decide (e.1 = k)) rest :=
        List.find?_cons_of_neg _ (by simp [hne])
      rw [hstep]
      exact ih hrest h

theorem Bucket.get_eq_some_of_mem (b : Bucket) (k v : List Nat)
    (hs : BucketSorted b) (hm : (k, v) ∈ b.data) : b.get k = some v := by
  unfold Bucket.get
  rw [find?_eq_of_mem_sorted b.data k v hs hm]
  rfl

theorem Bucket.mem_of_get_eq_some (b : Bucket) (k : List Nat) (v : List Nat)
    (h : b.get k = some v) : (k, v) ∈ b.data := by
  unfold Bucket.get at h
  cases hf : b.data.find? (fun e => e.1 = k) with
  | none => rw [hf] at h; simp at h
  | some e =>
    rw [hf] at h
    simp at h
    have hmem := List.mem_of_find?_eq_some hf
    have hk := List.find?_some hf
    simp only [decide_eq_true_eq] at hk
    have he : e = (k, v) := by
      cases e
      simp_all
    rwa [he] at hmem

theorem Bucket.get_put_self (b : Bucket) (k v : List Nat) : (b.put k v).get k = some v := by
  show (Bucket.get ⟨insertKV k v b.data, b.seq⟩ k) = some v
  unfold Bucket.get
  simp only
  induction b.data with
  | nil =>
    rw [show insertKV k v [] = [(k, v)] from rfl]
    simp
  | cons e rest ih =>
    by_cases h1 : lexLt k e.1
    · rw [show insertKV k v (e :: rest) = (k, v) :: e :: rest from by simp [insertKV, h1]]
      simp
    · by_cases h2 : k = e.1
      · rw [show insertKV k v (e :: rest) = (k, v) :: rest from by
          simp [insertKV, h1, h2, lexLt_irrefl]]
        simp
      · have hne : ¬(e.1 = k) := fun h => h2 h.symm
        rw [show insertKV k v (e :: rest) = e :: insertKV k v rest from by
          simp [insertKV, h1, h2]]
        have hstep : List.find? (fun e => decide (e.1 = k)) (e :: insertKV k v rest)
            = List.find? (fun e => decide (e.1 = k)) (insertKV k v rest) :=
          List.find?_cons_of_neg _ (by simp [hne])
        rw [hstep]
        exact ih

theorem Bucket.get_del_self (b : Bucket) (k : List Nat) : (b.del k).get k = none := by
  unfold Bucket.del Bucket.get
  simp only [Option.map_eq_none']
  rw [List.find?_eq_none]
  intro e he
  have := (List.mem_filter.mp he).2
  simpa using this

theorem NameBucket.getName_put_self (b : NameBucket) (k : String) (v : List Nat) :
    (b.put k v).get k = some v := by
  show (NameBucket.get ⟨putNV k v b.data⟩ k) = some v
  unfold NameBucket.get
  simp only
  induction b.data with
  | nil =>
    rw [show putNV k v [] = [(k, v)] from rfl]
    simp
  | cons e rest ih =>
    by_cases h1 : e.1 = k
    · rw [show putNV k v (e :: rest) = (k, v) :: rest from by simp [putNV, h1]]
      simp
    · rw [show putNV k v (e :: rest) = e :: putNV k v rest from by simp [putNV, h1]]
      have hstep : List.find? (fun e => decide (e.1 = k)) (e :: putNV k v rest)
          = List.find? (fun e => decide (e.1 = k)) (putNV k v rest) :=
        List.find?_cons_of_neg _ (by simp [h1])
      rw [hstep]
      exact ih

@[simp] theorem Bucket.put_seq (b : Bucket) (k v : List Nat) : (b.put k v).seq = b.seq := rfl

@[simp] theorem Bucket.del_seq (b : Bucket) (k : List Nat) : (b.del k).seq = b.seq := rfl

/-! ### Sequence monotonicity along committed histories -/

theorem execOp_seq_le (tx : Tx) (op : Op) : tx.main.seq ≤ (execOp tx op).1.main.seq := by
  cases op with
  | get id => exact Nat.le_refl _
  | put id v => exact Nat.le_of_eq rfl
  | delete id =>
    unfold execOp Tx.Delete
    cases h : tx.main.get (u64tob id) with
    | none => simp [h]
    | some v => simp [h]
  | allocateId => exact Nat.le_succ _
  | lookup name => exact Nat.le_refl _
  | associate id n =>
    unfold execOp Tx.Associate
    cases h : tx.byname.get (strToLower n) with
    | none => simp [h]
    | some k =>
      cases h2 : btou64 k with
      | none => simp [h, h2]
      | some eid => simp [h, h2]
  | unassociate n => exact Nat.le_refl _
  | restart => exact Nat.le_refl _

theorem execOp_alloc_spec (tx : Tx) (op : Op) (v : Nat) (h : (execOp tx op).2 = some v) :
    v = tx.main.seq + 1 ∧ (execOp tx op).1.main.seq = v := by
  cases op with
  | get id => simp [execOp] at h
  | put id v2 => simp [execOp] at h
  | delete id =>
    simp only [execOp] at h
    split at h <;> simp at h
  | allocateId =>
    simp only [execOp, Tx.AllocateId] at h ⊢
    simp at h
    exact ⟨h.symm, by simp [h]⟩
  | lookup name => simp [execOp] at h
  | associate id n =>
    simp only [execOp] at h
    split at h <;> simp at h
  | unassociate n => simp [execOp] at h
  | restart => simp [execOp] at h

theorem allocTrace_all_gt (ops : List Op) :
    ∀ tx : Tx, ∀ x ∈ allocTrace tx ops, tx.main.seq < x := by
  induction ops with
  | nil => intro tx x hx; simp [allocTrace] at hx
  | cons op ops ih =>
    intro tx x hx
    unfold allocTrace at hx
    cases hstep : execOp tx op with
    | mk tx2 alloc =>
      cases alloc with
      | none =>
        rw [hstep] at hx
        have hle := execOp_seq_le tx op
        rw [hstep] at hle
        exact Nat.lt_of_le_of_lt hle (ih tx2 x hx)
      | some v =>
        rw [hstep] at hx
        simp only [List.mem_cons] at hx
        obtain ⟨hv, hseq⟩ := execOp_alloc_spec tx op v (by rw [hstep])
        rcases hx with h | h
        · omega
        · have hle := execOp_seq_le tx op
          rw [hstep] at hle hseq
          have := ih tx2 x h
          simp only at hseq
          omega

theorem allocTrace_pairwise (ops : List Op) :
    ∀ tx : Tx, (allocTrace tx ops).Pairwise (· < ·) := by
  induction ops with
  | nil => intro tx; simp [allocTrace]
  | cons op ops ih =>
    intro tx
    unfold allocTrace
    cases hstep : execOp tx op with
    | mk tx2 alloc =>
      cases alloc with
      | none => exact ih tx2
      | some v =>
        refine List.pairwise_cons.mpr ⟨?_, ih tx2⟩
        intro x hx
        obtain ⟨hv, hseq⟩ := execOp_alloc_spec tx op v (by rw [hstep])
        have hseq2 : tx2.main.seq = v := by rw [hstep] at hseq; exact hseq
        have := allocTrace_all_gt ops tx2 x hx
        omega

/-! ### The claims -/

/-- C9: `btou64` is total on every byte string of length at most 8
(shorter inputs are treated as left-zero-padded) and panics only on
inputs longer than 8 bytes; `u64tob` always produces exactly 8 bytes
and `btou64 (u64tob v) = v` for every `uint64` value `v`, so the panic
branch is unreachable for keys produced by the fixed-width encoding. -/
theorem c9_btou64_totality :
    (∀ b : List Nat, b.length ≤ 8 → ∃ v, btou64 b = some v) ∧
    (∀ b : List Nat, b.length > 8 → btou64 b = none) ∧
    (∀ v : Nat, (u64tob v).length = 8) ∧
    (∀ v : Nat, v < 2 ^ 64 → btou64 (u64tob v) = some v) := by
  refine ⟨?_, ?_, fun v => rfl, btou64_u64tob⟩
  · intro b hb
    refine ⟨beVal (pad8 b), ?_⟩
    unfold btou64
    rw [if_neg]
    unfold pad8
    by_cases h : b.length < 8
    · rw [if_pos h]
      simp only [List.length_append, List.length_replicate]
      omega
    · rw [if_neg h]
      omega
  · intro b hb
    unfold btou64 pad8
    rw [if_neg (show ¬b.length < 8 by omega)]
    rw [if_pos hb]

theorem c9_btou64_totality_witness :
    (∃ v, btou64 [1, 2] = some v) ∧
    btou64 [0, 0, 0, 0, 0, 0, 0, 0, 1] = none ∧
    (u64tob 300).length = 8 ∧
    btou64 (u64tob 300) = some 300 :=
  ⟨c9_btou64_totality.1 [1, 2] (by norm_num),
   c9_btou64_totality.2.1 [0, 0, 0, 0, 0, 0, 0, 0, 1] (by norm_num),
   c9_btou64_totality.2.2.1 300,
   c9_btou64_totality.2.2.2 300 (by norm_num)⟩

/-- C5: along any committed history of repository operations
(including simulated store restarts, which reload the durable state
unchanged), the values returned by `AllocateId` are strictly
increasing in call order — so no value is returned twice — and an
`AllocateId` call leaves the stored records of both buckets unchanged,
touching only the sequence counter. -/
theorem c5_allocateId_strictly_increasing :
    (∀ (ops : List Op) (tx : Tx), (allocTrace tx ops).Pairwise (· < ·)) ∧
    (∀ tx : Tx, (execOp tx .allocateId).1.main.data = tx.main.data ∧
      (execOp tx .allocateId).1.byname = tx.byname ∧
      (execOp tx .allocateId).2 = some (tx.main.seq + 1)) :=
  ⟨fun ops tx => allocTrace_pairwise ops tx, fun _ => ⟨rfl, rfl, rfl⟩⟩

/-- C10: when a `UserDelta` provides `DisplayName` pointing at the
empty string, `Apply` sets the user's display name to its user name
(the user name after any provided `UserName` has been applied, since
that field is copied first); a provided non-empty display name is
copied verbatim. -/
theorem c10_apply_displayName_fallback (u : User) (d : UserDelta) :
    (d.DisplayName = some "" →
      (d.Apply u).DisplayName = (d.Apply u).UserName) ∧
    (∀ s, d.DisplayName = some s → s ≠ "" → (d.Apply u).DisplayName = s) := by
  obtain ⟨dn, dd, de, du⟩ := d
  constructor
  · intro h
    simp only at h
    subst h
    cases dn <;> cases de <;> cases du <;> simp [UserDelta.Apply]
  · intro s h hs
    simp only at h
    subst h
    cases dn <;> cases de <;> cases du <;> simp [UserDelta.Apply, hs]

/-- A concrete user for witnesses. -/
def uW : User :=
  { Id := 1, UserName := "bob", DisplayName := "Bobby", EMail := "b@x.co", URL := "" }

theorem c10_apply_displayName_fallback_witness :
    (UserDelta.Apply ⟨none, some "", none, none⟩ uW).DisplayName
      = (UserDelta.Apply ⟨none, some "", none, none⟩ uW).UserName ∧
    (UserDelta.Apply ⟨none, some "Robert", none, none⟩ uW).DisplayName = "Robert" :=
  ⟨(c10_apply_displayName_fallback uW ⟨none, some "", none, none⟩).1 rfl,
   (c10_apply_displayName_fallback uW ⟨none, some "Robert", none, none⟩).2
     "Robert" rfl (by decide)⟩

/-- C6: after a successful `Associate(id, n)`, `Lookup(m)` returns
`id` for every name `m` whose lowercased form equals that of `n` (in
particular `Associate(id, "Bob")` then `Lookup("bob")` returns `id`);
the bound `id < 2 ^ 64` reflects that ids are `uint64` values. -/
theorem c6_associate_then_lookup (tx tx2 : Tx) (id : Nat) (n m : String)
    (hid : id < 2 ^ 64) (hlc : strToLower m = strToLower n)
    (hassoc : tx.Associate id n = .ok tx2) :
    tx2.Lookup m = .ok id := by
  unfold Tx.Associate at hassoc
  cases hg : tx.byname.get (strToLower n) with
  | some k =>
    simp only [hg] at hassoc
    cases hb : btou64 k with
    | none => rw [hb] at hassoc; simp at hassoc
    | some e => rw [hb] at hassoc; simp at hassoc
  | none =>
    rw [hg] at hassoc
    simp only [Except.ok.injEq] at hassoc
    unfold Tx.Lookup
    rw [← hassoc, hlc]
    rw [show ({ tx with byname := tx.byname.put (strToLower n) (u64tob id) } : Tx).byname
        = tx.byname.put (strToLower n) (u64tob id) from rfl]
    rw [NameBucket.getName_put_self]
    simp only [btou64_u64tob id hid]

/-- A transaction state with an empty name index, for the C6 witness. -/
def txC6 : Tx := { ot := .user, main := { data := [], seq := 0 }, byname := ⟨[]⟩ }

/-- The state after `Associate(7, "Bob")` on `txC6`. -/
def txC6b : Tx :=
  { ot := .user, main := { data := [], seq := 0 },
    byname := ⟨[(strToLower "Bob", u64tob 7)]⟩ }

theorem c6_associate_then_lookup_witness : Tx.Lookup txC6b "bob" = .ok 7 :=
  c6_associate_then_lookup txC6 txC6b 7 "Bob" "bob" (by norm_num) (by decide) (by rfl)

/-- C7: `Delete(id)` fails with `NotFound(type, id)` exactly when no
record is stored at `id`, and a failing `Delete` inside an `Update`
leaves the state unchanged; a successful `Delete(id)` leaves the name
index and sequence untouched and afterwards `Get(id)` fails with
`NotFound(type, id)`. -/
theorem c7_delete_semantics (tx : Tx) (id : Nat) :
    (tx.main.get (u64tob id) = none →
      tx.Delete id = .error (.notFound tx.ot id "") ∧
      RepoUpdate tx (fun t => (t.Delete id).map (fun t2 => (t2, ()))) =
        (tx, .error (.notFound tx.ot id ""))) ∧
    (∀ v, tx.main.get (u64tob id) = some v →
      ∃ tx2, tx.Delete id = .ok tx2 ∧
        tx2.Get id = .error (.notFound tx.ot id "") ∧
        tx2.byname = tx.byname ∧ tx2.main.seq = tx.main.seq) := by
  constructor
  · intro h
    have hdel : tx.Delete id = .error (.notFound tx.ot id "") := by
      unfold Tx.Delete
      rw [h]
    refine ⟨hdel, ?_⟩
    unfold RepoUpdate
    simp only [hdel, Except.map]
  · intro v h
    refine ⟨{ tx with main := tx.main.del (u64tob id) }, ?_, ?_, rfl, rfl⟩
    · unfold Tx.Delete
      rw [h]
    · unfold Tx.Get
      rw [show ({ tx with main := tx.main.del (u64tob id) } : Tx).main
          = tx.main.del (u64tob id) from rfl]
      rw [Bucket.get_del_self]

/-- A transaction state holding one record (id 1), for the C7 witness. -/
def txC7 : Tx :=
  { ot := .user, main := { data := [(u64tob 1, [42])], seq := 1 }, byname := ⟨[]⟩ }

theorem c7_delete_semantics_witness :
    (Tx.Delete txC7 2 = .error (.notFound .user 2 "") ∧
      RepoUpdate txC7 (fun t => (t.Delete 2).map (fun t2 => (t2, ()))) =
        (txC7, .error (.notFound .user 2 ""))) ∧
    (∃ tx2, Tx.Delete txC7 1 = .ok tx2 ∧
      tx2.Get 1 = .error (.notFound .user 1 "") ∧
      tx2.byname = txC7.byname ∧ tx2.main.seq = txC7.main.seq) :=
  ⟨(c7_delete_semantics txC7 2).1 (by rfl),
   (c7_delete_semantics txC7 1).2 [42] (by rfl)⟩

/-- A transaction state whose name index already maps "a" to id 5, for
the C1 counterexample. -/
def txC1 : Tx :=
  { ot := .user, main := { data := [], seq := 0 }, byname := ⟨[("a", u64tob 5)]⟩ }

/-- C1 counterexample: the lowercased name "a" already maps to id 5
itself, yet `Associate(5, "a")` fails with `Duplicate` — the claim
states it should succeed when the name already maps to the id being
associated. -/
theorem c1_associate_counterexample :
    Tx.Associate txC1 5 "a" = .error (.duplicate .user 5 "a") := by rfl

/-- C1 (amended): `Associate(id, name)` fails with
`Duplicate(type, existingId, desiredName)` whenever the lowercased
name is already mapped to any id — even when it already maps to `id`
itself — and in that case the index is unchanged, so `Lookup(name)`
still returns the previously mapped id; when the lowercased name is
unmapped, `Associate` succeeds and afterwards the index maps the
lowercased name to `id`. -/
theorem c1_associate_duplicate_amended (tx : Tx) (id : Nat) (name : String) :
    (∀ eid, eid < 2 ^ 64 → tx.byname.get (strToLower name) = some (u64tob eid) →
      tx.Associate id name = .error (.duplicate tx.ot eid name) ∧
      tx.Lookup name = .ok eid) ∧
    (tx.byname.get (strToLower name) = none →
      ∃ tx2, tx.Associate id name = .ok tx2 ∧
        tx2.byname.get (strToLower name) = some (u64tob id) ∧
        tx2.main = tx.main ∧
        (id < 2 ^ 64 → tx2.Lookup name = .ok id)) := by
  constructor
  · intro eid heid hmap
    constructor
    · unfold Tx.Associate
      simp only [hmap, btou64_u64tob eid heid]
    · unfold Tx.Lookup
      simp only [hmap, btou64_u64tob eid heid]
  · intro hnone
    refine ⟨{ tx with byname := tx.byname.put (strToLower name) (u64tob id) }, ?_, ?_, rfl, ?_⟩
    · unfold Tx.Associate
      rw [hnone]
    · rw [show ({ tx with byname := tx.byname.put (strToLower name) (u64tob id) } : Tx).byname
          = tx.byname.put (strToLower name) (u64tob id) from rfl]
      exact NameBucket.getName_put_self _ _ _
    · intro hid
      unfold Tx.Lookup
      rw [show ({ tx with byname := tx.byname.put (strToLower name) (u64tob id) } : Tx).byname
          = tx.byname.put (strToLower name) (u64tob id) from rfl]
      rw [NameBucket.getName_put_self]
      simp only [btou64_u64tob id hid]

/-- A state mapping "b" to id 9, for the C1 amended witness. -/
def txC1b : Tx :=
  { ot := .user, main := { data := [], seq := 0 }, byname := ⟨[("b", u64tob 9)]⟩ }

theorem c1_associate_duplicate_amended_witness :
    (Tx.Associate txC1b 3 "b" = .error (.duplicate .user 9 "b") ∧
      Tx.Lookup txC1b "b" = .ok 9) ∧
    (∃ tx2, Tx.Associate txC1b 3 "c" = .ok tx2 ∧
      tx2.byname.get (strToLower "c") = some (u64tob 3) ∧
      tx2.main = txC1b.main ∧
      (3 < 2 ^ 64 → tx2.Lookup "c" = .ok 3)) :=
  ⟨(c1_associate_duplicate_amended txC1b 3 "b").1 9 (by norm_num) (by rfl),
   (c1_associate_duplicate_amended txC1b 3 "c").2 (by rfl)⟩

/-- C2: a creation request whose (lowercased) name is already mapped
in the name index aborts the whole `Update` transaction: `CreateUser`
fails with `Duplicate`, the returned state is exactly the input state
(no record persisted, name index unchanged, sequence not advanced),
and the next `AllocateId` returns the very value the failed creation
had used. -/
theorem c2_create_duplicate_aborts (marshal : User → List Nat) (d : UserDelta) (tx : Tx)
    (eid : Nat) (heid : eid < 2 ^ 64)
    (hdup : tx.byname.get (strToLower (d.Apply emptyUser).UserName) = some (u64tob eid)) :
    CreateUser marshal d tx
      = (tx, .error (.duplicate tx.ot eid (d.Apply emptyUser).UserName)) ∧
    ((CreateUser marshal d tx).1.AllocateId).1 = (tx.AllocateId).1 := by
  have hmain : CreateUser marshal d tx
      = (tx, .error (.duplicate tx.ot eid (d.Apply emptyUser).UserName)) := by
    unfold CreateUser RepoUpdate createUserTx Tx.AllocateId Tx.Associate
    simp only
    rw [show ({ tx with main := { tx.main with seq := tx.main.seq + 1 } } : Tx).byname
        = tx.byname from rfl]
    simp only [hdup, btou64_u64tob eid heid]
  exact ⟨hmain, by rw [hmain]⟩

/-- A state whose name index maps "alice" to id 1, for the C2
witness. -/
def txC2 : Tx :=
  { ot := .user, main := { data := [], seq := 1 }, byname := ⟨[("alice", u64tob 1)]⟩ }

/-- The delta of a request creating a second "Alice". -/
def dC2 : UserDelta := ⟨some "Alice", none, some "a@b.cd", none⟩

theorem c2_create_duplicate_aborts_witness :
    CreateUser (fun _ => []) dC2 txC2
      = (txC2, .error (.duplicate txC2.ot 1 (dC2.Apply emptyUser).UserName)) ∧
    ((CreateUser (fun _ => []) dC2 txC2).1.AllocateId).1 = (txC2.AllocateId).1 :=
  c2_create_duplicate_aborts (fun _ => []) dC2 txC2 1 (by norm_num) (by rfl)

/-- Frame facts about `UserDelta.Apply`: the id is never touched, and
a field left `none` in the delta keeps its prior value. -/
theorem UserDelta.apply_frame (d : UserDelta) (u : User) :
    (d.Apply u).Id = u.Id ∧
    (d.UserName = none → (d.Apply u).UserName = u.UserName) ∧
    (d.DisplayName = none → (d.Apply u).DisplayName = u.DisplayName) ∧
    (d.EMail = none → (d.Apply u).EMail = u.EMail) ∧
    (d.URL = none → (d.Apply u).URL = u.URL) := by
  obtain ⟨dn, dd, de, du⟩ := d
  refine ⟨?_, ?_, ?_, ?_, ?_⟩ <;>
    cases dn <;> cases dd <;> cases de <;> cases du <;>
      simp [UserDelta.Apply, apply_ite]

/-- C3: for a conditional update that resolves to an existing record,
an absent `If-Match` fingerprint yields the 428 `preconditionRequired`
outcome reporting the record's current fingerprint, and a
non-matching fingerprint yields the 412 `preconditionFailed` outcome
reporting the current fingerprint; in both cases the returned state is
exactly the input state, so the stored record is unchanged. -/
theorem c3_conditional_update_preconditions
    (marshalP : User → List Nat) (unmarshalP : List Nat → User)
    (marshalJ : User → List Nat) (etagFor : List Nat → String)
    (d : UserDelta) (ifMatch : String) (userId : Nat) (userName : String)
    (tx : Tx) (uid : Nat) (value : List Nat)
    (hres : (if userId = 0 then tx.Lookup userName else .ok userId) = .ok uid)
    (hget : tx.Get uid = .ok value) :
    (ifMatch = "" →
      PutUser marshalP unmarshalP marshalJ etagFor d ifMatch userId userName tx
        = (tx, .ok (.preconditionRequired (etagFor (marshalJ (unmarshalP value)))))) ∧
    (ifMatch ≠ "" → ifMatch ≠ etagFor (marshalJ (unmarshalP value)) →
      PutUser marshalP unmarshalP marshalJ etagFor d ifMatch userId userName tx
        = (tx, .ok (.preconditionFailed (etagFor (marshalJ (unmarshalP value)))))) := by
  constructor
  · intro hm
    subst hm
    unfold PutUser RepoUpdate putUserTx
    simp only [hres, hget]
    simp
  · intro hne hmm
    unfold PutUser RepoUpdate putUserTx
    simp only [hres, hget]
    simp [hne, hmm]

/-- A transaction state holding one user record (id 1), for the C3
witness. -/
def txC3 : Tx :=
  { ot := .user, main := { data := [(u64tob 1, [7])], seq := 1 }, byname := ⟨[]⟩ }

theorem c3_conditional_update_preconditions_witness :
    PutUser (fun _ => []) (fun _ => uW) (fun _ => []) (fun _ => "W")
      ⟨none, none, none, none⟩ "" 1 "x" txC3
      = (txC3, .ok (.preconditionRequired "W")) ∧
    PutUser (fun _ => []) (fun _ => uW) (fun _ => []) (fun _ => "W")
      ⟨none, none, none, none⟩ "stale" 1 "x" txC3
      = (txC3, .ok (.preconditionFailed "W")) :=
  ⟨(c3_conditional_update_preconditions (fun _ => []) (fun _ => uW) (fun _ => [])
      (fun _ => "W") ⟨none, none, none, none⟩ "" 1 "x" txC3 1 [7] rfl rfl).1 rfl,
   (c3_conditional_update_preconditions (fun _ => []) (fun _ => uW) (fun _ => [])
      (fun _ => "W") ⟨none, none, none, none⟩ "stale" 1 "x" txC3 1 [7] rfl rfl).2
     (by decide) (by decide)⟩

/-- C8: a conditional update whose supplied fingerprint matches the
current one persists exactly the delta-applied record at the resolved
id; every field the delta leaves `none` retains its prior stored
value, and the record's id is unchanged. -/
theorem c8_conditional_update_frame
    (marshalP : User → List Nat) (unmarshalP : List Nat → User)
    (marshalJ : User → List Nat) (etagFor : List Nat → String)
    (d : UserDelta) (ifMatch : String) (userId : Nat) (userName : String)
    (tx : Tx) (uid : Nat) (value : List Nat)
    (hres : (if userId = 0 then tx.Lookup userName else .ok userId) = .ok uid)
    (hget : tx.Get uid = .ok value)
    (hne : ifMatch ≠ "")
    (hmatch : ifMatch = etagFor (marshalJ (unmarshalP value))) :
    PutUser marshalP unmarshalP marshalJ etagFor d ifMatch userId userName tx
      = (tx.Put uid (marshalP (d.Apply (unmarshalP value))),
         .ok (.updated (etagFor (marshalJ (d.Apply (unmarshalP value))))
           (d.Apply (unmarshalP value)))) ∧
    (tx.Put uid (marshalP (d.Apply (unmarshalP value)))).Get uid
      = .ok (marshalP (d.Apply (unmarshalP value))) ∧
    (d.Apply (unmarshalP value)).Id = (unmarshalP value).Id ∧
    (d.UserName = none →
      (d.Apply (unmarshalP value)).UserName = (unmarshalP value).UserName) ∧
    (d.DisplayName = none →
      (d.Apply (unmarshalP value)).DisplayName = (unmarshalP value).DisplayName) ∧
    (d.EMail = none →
      (d.Apply (unmarshalP value)).EMail = (unmarshalP value).EMail) ∧
    (d.URL = none →
      (d.Apply (unmarshalP value)).URL = (unmarshalP value).URL) := by
  obtain ⟨hid, hun, hdn, hem, hurl⟩ := UserDelta.apply_frame d (unmarshalP value)
  refine ⟨?_, ?_, hid, hun, hdn, hem, hurl⟩
  · unfold PutUser RepoUpdate putUserTx
    simp only [hres, hget]
    rw [if_neg hne, if_neg (show ¬ifMatch ≠ etagFor (marshalJ (unmarshalP value)) by
      simp [hmatch])]
  · unfold Tx.Get Tx.Put
    rw [show ({ tx with
        main := tx.main.put (u64tob uid) (marshalP (d.Apply (unmarshalP value))) } : Tx).main
        = tx.main.put (u64tob uid) (marshalP (d.Apply (unmarshalP value))) from rfl]
    rw [Bucket.get_put_self]

/-- A transaction state holding one user record (id 1), for the C8
witness. -/
def txC8 : Tx :=
  { ot := .user, main := { data := [(u64tob 1, [7])], seq := 1 }, byname := ⟨[]⟩ }

/-- A delta providing only the e-mail field. -/
def dC8 : UserDelta := ⟨none, none, some "new@x.co", none⟩

theorem c8_conditional_update_frame_witness :
    PutUser (fun _ => [9]) (fun _ => uW) (fun _ => []) (fun _ => "W") dC8 "W" 1 "x" txC8
      = (txC8.Put 1 [9], .ok (.updated "W" (dC8.Apply uW))) ∧
    (txC8.Put 1 [9]).Get 1 = .ok [9] ∧
    (dC8.Apply uW).Id = uW.Id ∧
    (dC8.UserName = none → (dC8.Apply uW).UserName = uW.UserName) ∧
    (dC8.DisplayName = none → (dC8.Apply uW).DisplayName = uW.DisplayName) ∧
    (dC8.EMail = none → (dC8.Apply uW).EMail = uW.EMail) ∧
    (dC8.URL = none → (dC8.Apply uW).URL = uW.URL) :=
  c8_conditional_update_frame (fun _ => [9]) (fun _ => uW) (fun _ => [])
    (fun _ => "W") dC8 "W" 1 "x" txC8 1 [7] rfl rfl (by decide) rfl

/-- C4: the 8-byte big-endian key encoding is order-preserving — for
all `uint64` values `a < b`, `u64tob a` is lexicographically smaller
than `u64tob b` — and therefore `Tx.ForEach` over any well-formed
bucket visits exactly the stored `(id, payload)` pairs, each exactly
once, in strictly ascending numeric id order. -/
theorem c4_forEach_ascending_order :
    (∀ a b : Nat, a < b → b < 2 ^ 64 → lexLt (u64tob a) (u64tob b) = true) ∧
    (∀ tx : Tx, BucketSorted tx.main → BucketKeys8 tx.main →
      ∃ l : List (Nat × List Nat),
        tx.forEachVisits = l.map (fun p => (some p.1, p.2)) ∧
        (l.map Prod.fst).Pairwise (· < ·) ∧
        (∀ id v, (id, v) ∈ l ↔ (id < 2 ^ 64 ∧ tx.Get id = .ok v))) := by
  constructor
  · intro a b hab hb
    have ha : a < 2 ^ 64 := lt_trans hab hb
    rw [lexLt_iff_beVal_lt (u64tob a) (u64tob b)
      (show (u64tob a).length = (u64tob b).length from rfl)
      (u64tob_bytes a) (u64tob_bytes b)]
    rw [beVal_u64tob, beVal_u64tob, Nat.mod_eq_of_lt ha, Nat.mod_eq_of_lt hb]
    exact hab
  · intro tx hs hk
    refine ⟨tx.main.data.map (fun e => (beVal e.1, e.2)), ?_, ?_, ?_⟩
    · unfold Tx.forEachVisits
      rw [List.map_map]
      refine List.map_congr_left ?_
      intro e he
      have h8 := (hk e he).1
      simp only [Function.comp]
      rw [btou64_of_len8 e.1 h8]
    · rw [List.map_map]
      rw [List.pairwise_map]
      refine List.Pairwise.imp_of_mem ?_ hs
      intro e1 e2 h1 h2 hlex
      have hk1 := hk e1 h1
      have hk2 := hk e2 h2
      have hlen : e1.1.length = e2.1.length := by rw [hk1.1, hk2.1]
      exact (lexLt_iff_beVal_lt e1.1 e2.1 hlen hk1.2 hk2.2).mp hlex
    · intro id v
      constructor
      · intro hm
        rcases List.mem_map.mp hm with ⟨e, he, heq⟩
        have hk8 := hk e he
        have hid : beVal e.1 < 2 ^ 64 := beVal_lt_two_pow e.1 hk8.1 hk8.2
        have henc : u64tob (beVal e.1) = e.1 := u64tob_beVal e.1 hk8.1 hk8.2
        have hidv : beVal e.1 = id ∧ e.2 = v := by
          constructor
          · exact congrArg Prod.fst heq
          · exact congrArg Prod.snd heq
        refine ⟨hidv.1 ▸ hid, ?_⟩
        unfold Tx.Get
        rw [← hidv.1, henc]
        have hget : tx.main.get e.1 = some e.2 := by
          refine Bucket.get_eq_some_of_mem tx.main e.1 e.2 hs ?_
          rwa [Prod.mk.eta]
        rw [hget, hidv.2]
      · rintro ⟨hid, hget⟩
        unfold Tx.Get at hget
        cases hg : tx.main.get (u64tob id) with
        | none => rw [hg] at hget; simp at hget
        | some w =>
          rw [hg] at hget
          simp only [Except.ok.injEq] at hget
          subst hget
          have hmem : (u64tob id, w) ∈ tx.main.data :=
            Bucket.mem_of_get_eq_some tx.main (u64tob id) w hg
          have hmm : (beVal (u64tob id), w) ∈ tx.main.data.map (fun e => (beVal e.1, e.2)) :=
            List.mem_map.mpr ⟨(u64tob id, w), hmem, rfl⟩
          rwa [beVal_u64tob, Nat.mod_eq_of_lt hid] at hmm

/-- A bucket holding records at ids 1, 2, 3 in key order, for the C4
witness. -/
def txC4 : Tx :=
  { ot := .user,
    main := { data := [(u64tob 1, [10]), (u64tob 2, [20]), (u64tob 3, [30])], seq := 3 },
    byname := ⟨[]⟩ }

theorem c4_forEach_ascending_order_witness :
    lexLt (u64tob 1) (u64tob 3) = true ∧
    ∃ l : List (Nat × List Nat),
      txC4.forEachVisits = l.map (fun p => (some p.1, p.2)) ∧
      (l.map Prod.fst).Pairwise (· < ·) ∧
      (∀ id v, (id, v) ∈ l ↔ (id < 2 ^ 64 ∧ txC4.Get id = .ok v)) :=
  ⟨c4_forEach_ascending_order.1 1 3 (by norm_num) (by norm_num),
   c4_forEach_ascending_order.2 txC4
     (by unfold BucketSorted; decide) (by unfold BucketKeys8; decide)⟩

end Cloud9
